import Mathlib

/-!
# chik-exporter: event routing and gauge helpers

A shallow embedding of `internal/metrics/metrics.go`.

* Gauge values are `float64` in the source.  The helpers only store values that
  were decoded from the payload and count upward by ones from zero, both of which
  are exact in `float64` below `2^53`, so values are represented by rationals.
* `json.Unmarshal` belongs to the standard library; every helper takes the decoder
  as an argument and the theorems hold for every decoder.
* Calls that leave the package (logging, transport, handler methods) are recorded,
  in program order, in a list of effects.
-/

namespace ChikExporter

/-! ## Logging -/

/-- Severity levels of the logging library, most severe first. -/
inductive LogLevel
  | PanicLevel | FatalLevel | ErrorLevel | WarnLevel | InfoLevel | DebugLevel | TraceLevel
deriving DecidableEq, Repr

/-- One call handed to the logging library: `log.Errorf` is an `ErrorLevel` entry,
`log.Printf` an `InfoLevel` entry, `log.Debug` and `log.Debugf` a `DebugLevel` entry. -/
structure LogEntry where
  level : LogLevel
  message : String
deriving DecidableEq, Repr

/-! ## Events and payloads -/

/-- The event envelope `types.WebsocketResponse`; `Data` is the raw payload. -/
structure WebsocketResponse where
  Origin : String
  Command : String
  Destination : String
  Data : String
deriving DecidableEq, Repr

/-- Node types of `types.NodeType`: the six the source switches on, and any other code. -/
inductive NodeType
  | NodeTypeFullNode | NodeTypeHarvester | NodeTypeFarmer
  | NodeTypeTimelord | NodeTypeIntroducer | NodeTypeWallet
  | other (code : Nat)
deriving DecidableEq, Repr

/-- One entry of the connections list; only the field the source reads is kept. -/
structure Connection where
  nodeType : NodeType
deriving DecidableEq, Repr

/-- The decoded `rpc.GetConnectionsResponse`: an optional connections list. -/
structure GetConnectionsResponse where
  Connections : Option (List Connection)
deriving DecidableEq, Repr

/-- The decoded debug payload: a Go map from label to number, listed in the order
in which `range` visits it. -/
structure debugEvent where
  Data : List (String × ℚ)
deriving DecidableEq, Repr

/-- A decoder in the role of `json.Unmarshal`: payload to value, or an error text. -/
abbrev Unmarshal (α : Type) := String → Except String α

/-! ## Go maps as lists of entries -/

/-- Reading a key of a map kept as a list of entries: `none` when the key is missing. -/
def mapGet {κ α : Type} [DecidableEq κ] : List (κ × α) → κ → Option α
  | [], _ => none
  | (k, w) :: rest, l => if k = l then some w else mapGet rest l

/-- Writing a key: the entry is overwritten when present and created otherwise. -/
def mapSet {κ α : Type} [DecidableEq κ] : List (κ × α) → κ → α → List (κ × α)
  | [], l, v => [(l, v)]
  | (k, w) :: rest, l, v => if k = l then (k, v) :: rest else (k, w) :: mapSet rest l v

/-! ## Gauge vectors with one label -/

/-- The children of a `prometheus.GaugeVec` with a single label: label value and
current value, in order of creation. -/
abbrev GaugeVec := List (String × ℚ)

/-- The value a scrape shows for a label value, `none` when that child does not exist. -/
def gaugeRead (g : GaugeVec) (l : String) : Option ℚ := mapGet g l

/-- The call `vec.WithLabelValues(l).Set(v)`: the child is created when missing, then set. -/
def gaugeSet (g : GaugeVec) (l : String) (v : ℚ) : GaugeVec := mapSet g l v

/-- The label values that have a child. -/
def gaugeLabels (g : GaugeVec) : List String := g.map Prod.fst

/-! ## connectionCountHelper -/

/-- The six local counters of `connectionCountHelper`. -/
structure ConnCounters where
  fullNode : ℚ
  harvester : ℚ
  farmer : ℚ
  timelord : ℚ
  introducer : ℚ
  wallet : ℚ
deriving DecidableEq, Repr

/-- All six counters start at `0.0`. -/
def ConnCounters.zero : ConnCounters := ⟨0, 0, 0, 0, 0, 0⟩

/-- The body of the loop: the `switch` on `connection.Type`. -/
def countConnection (c : ConnCounters) (connection : Connection) : ConnCounters :=
  match connection.nodeType with
  | .NodeTypeFullNode => { c with fullNode := c.fullNode + 1 }
  | .NodeTypeHarvester => { c with harvester := c.harvester + 1 }
  | .NodeTypeFarmer => { c with farmer := c.farmer + 1 }
  | .NodeTypeTimelord => { c with timelord := c.timelord + 1 }
  | .NodeTypeIntroducer => { c with introducer := c.introducer + 1 }
  | .NodeTypeWallet => { c with wallet := c.wallet + 1 }
  | .other _ => c

/-- The counters after the optional connections list has been walked. -/
def tallyConnections (connections : GetConnectionsResponse) : ConnCounters :=
  match connections.Connections with
  | some conns => conns.foldl countConnection ConnCounters.zero
  | none => ConnCounters.zero

/-- The six `WithLabelValues(..).Set(..)` calls, in source order. -/
def writeCounters (connectionCount : GaugeVec) (c : ConnCounters) : GaugeVec :=
  gaugeSet (gaugeSet (gaugeSet (gaugeSet (gaugeSet (gaugeSet connectionCount
    "full_node" c.fullNode) "harvester" c.harvester) "farmer" c.farmer)
    "timelord" c.timelord) "introducer" c.introducer) "wallet" c.wallet

/-- The function `connectionCountHelper`: the gauge vector afterwards and the log
entries emitted. -/
def connectionCountHelper (jsonUnmarshal : Unmarshal GetConnectionsResponse)
    (resp : WebsocketResponse) (connectionCount : GaugeVec) : GaugeVec × List LogEntry :=
  match jsonUnmarshal resp.Data with
  | .error err => (connectionCount, [⟨.ErrorLevel, "Error unmarshalling: " ++ err ++ "\n"⟩])
  | .ok connections => (writeCounters connectionCount (tallyConnections connections), [])

/-! ## debugHelper -/

/-- The function `debugHelper`: every key of the decoded map becomes a label value
and its number is passed straight through. -/
def debugHelper (jsonUnmarshal : Unmarshal debugEvent)
    (resp : WebsocketResponse) (debugGaugeVec : GaugeVec) : GaugeVec × List LogEntry :=
  match jsonUnmarshal resp.Data with
  | .error err =>
    (debugGaugeVec, [⟨.ErrorLevel, "Error unmarshalling debugMetrics: " ++ err ++ "\n"⟩])
  | .ok debugMetrics =>
    (debugMetrics.Data.foldl (fun g kv => gaugeSet g kv.1 kv.2) debugGaugeVec, [])

/-- The number of connections of a node type in a list (specification side). -/
def connectionsOfType (t : NodeType) (conns : List Connection) : Nat :=
  (conns.filter (fun c => c.nodeType = t)).length

/-- The six label values written by `connectionCountHelper`, each with its node type. -/
def connectionLabels : List (String × NodeType) :=
  [("full_node", .NodeTypeFullNode), ("harvester", .NodeTypeHarvester),
   ("farmer", .NodeTypeFarmer), ("timelord", .NodeTypeTimelord),
   ("introducer", .NodeTypeIntroducer), ("wallet", .NodeTypeWallet)]

/-! ## Services, handlers and effects -/

/-- The Go type `chikService`, a string. -/
abbrev chikService := String

def chikServiceFullNode : chikService := "full_node"
def chikServiceWallet : chikService := "wallet"
def chikServiceCrawler : chikService := "crawler"
def chikServiceTimelord : chikService := "timelord"
def chikServiceHarvester : chikService := "harvester"
def chikServiceFarmer : chikService := "farmer"

/-- The handler objects behind the interface `serviceMetrics`: one per implementation
that `NewMetrics` allocates. -/
inductive serviceMetrics
  | FullNodeServiceMetrics | WalletServiceMetrics | CrawlerServiceMetrics
  | TimelordServiceMetrics | HarvesterServiceMetrics | FarmerServiceMetrics
deriving DecidableEq, Repr

/-- The methods of the interface `serviceMetrics`. -/
inductive Method
  | InitMetrics | InitialData | SetupPollingMetrics
  | ReceiveResponse (resp : WebsocketResponse)
  | Disconnected | Reconnected
deriving DecidableEq, Repr

/-- The two modes of `rpc.NewClient`. -/
inductive ConnectionMode
  | ConnectionModeWebsocket | ConnectionModeHTTP
deriving DecidableEq, Repr

/-- An `rpc.Client`, known here only by the mode it was built in. -/
structure Client where
  mode : ConnectionMode
deriving DecidableEq, Repr

/-- What the code does to the outside, one constructor per kind of outgoing call. -/
inductive Effect
  | SetLevel (level : LogLevel)
  | log (entry : LogEntry)
  | NewClient (mode : ConnectionMode)
  | SubscribeSelf
  | Subscribe (service : String)
  | AddHandler
  | AddDisconnectHandler
  | AddReconnectHandler
  | call (handler : serviceMetrics) (method : Method)
deriving DecidableEq, Repr

/-- The dispatcher table `map[chikService]serviceMetrics`. -/
abbrev ServiceTable := List (chikService × serviceMetrics)

/-- What the surroundings answer: the outcome of building a client in each mode, the
error (if any) of each subscription step, the address of a fresh registry, and the
order in which `range` visits a map. -/
structure Env where
  NewClient : ConnectionMode → Except String Client
  SubscribeSelf : Option String
  Subscribe : String → Option String
  AddHandler : Option String
  NewRegistry : Nat
  rangeOrder : ServiceTable → ServiceTable

/-- The struct `Metrics`; `registry` is the address of the registry, whose contents
live in a `MetricStore`. -/
structure Metrics where
  metricsPort : Nat
  client : Client
  httpClient : Option Client
  registry : Nat
  serviceMetrics : ServiceTable
deriving DecidableEq, Repr

/-- The table after the six assignments of `NewMetrics`, starting from the empty map. -/
def registerServices : ServiceTable :=
  mapSet (mapSet (mapSet (mapSet (mapSet (mapSet []
    chikServiceFullNode .FullNodeServiceMetrics)
    chikServiceWallet .WalletServiceMetrics)
    chikServiceCrawler .CrawlerServiceMetrics)
    chikServiceTimelord .TimelordServiceMetrics)
    chikServiceHarvester .HarvesterServiceMetrics)
    chikServiceFarmer .FarmerServiceMetrics

/-- The function `NewMetrics`: the value returned (a `Metrics` or the error) and the
effects, in order. -/
def NewMetrics (env : Env) (port : Nat) (logLevel : LogLevel) :
    Except String Metrics × List Effect :=
  let start := [Effect.SetLevel logLevel, Effect.NewClient .ConnectionModeWebsocket]
  match env.NewClient .ConnectionModeWebsocket with
  | .error err => (.error err, start)
  | .ok client =>
    let http : Option Client × List Effect :=
      match env.NewClient .ConnectionModeHTTP with
      | .error err =>
        (none, [Effect.log ⟨.ErrorLevel, "Error creating http client: " ++ err ++ "\n"⟩])
      | .ok c => (some c, [])
    let metrics : Metrics :=
      { metricsPort := port, client := client, httpClient := http.1,
        registry := env.NewRegistry, serviceMetrics := registerServices }
    (.ok metrics,
      start ++ [Effect.NewClient .ConnectionModeHTTP] ++ http.2 ++
        (env.rangeOrder metrics.serviceMetrics).map (fun service => Effect.call service.2 .InitMetrics))

/-- The loop of `OpenWebsocket`: `InitialData` then `SetupPollingMetrics` for each service. -/
def openServices (services : ServiceTable) : List Effect :=
  services.flatMap (fun service =>
    [Effect.call service.2 .InitialData, Effect.call service.2 .SetupPollingMetrics])

/-- The method `OpenWebsocket`: the receiver afterwards, the error returned (`none`
for `nil`) and the effects, in order. -/
def OpenWebsocket (env : Env) (m : Metrics) : Metrics × Option String × List Effect :=
  match env.SubscribeSelf with
  | some err => (m, some err, [Effect.SubscribeSelf])
  | none =>
    match env.Subscribe "metrics" with
    | some err => (m, some err, [Effect.SubscribeSelf, Effect.Subscribe "metrics"])
    | none =>
      match env.AddHandler with
      | some err =>
        (m, some err, [Effect.SubscribeSelf, Effect.Subscribe "metrics", Effect.AddHandler])
      | none =>
        (m, none,
          [Effect.SubscribeSelf, Effect.Subscribe "metrics", Effect.AddHandler,
            Effect.AddDisconnectHandler, Effect.AddReconnectHandler] ++
            openServices (env.rangeOrder m.serviceMetrics))

/-- The statement `m.serviceMetrics[key].ReceiveResponse(resp)`: a missing key yields a
nil interface, and the call on it is a runtime panic (`none`). -/
def dispatch (m : Metrics) (key : chikService) (resp : WebsocketResponse) :
    Option (List Effect) :=
  match mapGet m.serviceMetrics key with
  | some handler => some [Effect.call handler (.ReceiveResponse resp)]
  | none => none

/-- The `switch resp.Origin` of `websocketReceive`. -/
def routeOrigin (m : Metrics) (resp : WebsocketResponse) : Option (List Effect) :=
  match resp.Origin with
  | "chik_full_node" => dispatch m chikServiceFullNode resp
  | "chik_wallet" => dispatch m chikServiceWallet resp
  | "chik_crawler" => dispatch m chikServiceCrawler resp
  | "chik_timelord" => dispatch m chikServiceTimelord resp
  | "chik_harvester" => dispatch m chikServiceHarvester resp
  | "chik_farmer" => dispatch m chikServiceFarmer resp
  | _ => some []

/-- The two log calls of `websocketReceive` for an event: `log.Printf`, then `log.Debugf`. -/
def recvLogs (resp : WebsocketResponse) : List Effect :=
  [Effect.log ⟨.InfoLevel, "recv: " ++ resp.Origin ++ " " ++ resp.Command ++ "\n"⟩,
    Effect.log ⟨.DebugLevel,
      "origin: " ++ resp.Origin ++ " command: " ++ resp.Command ++ " destination: " ++
        resp.Destination ++ " data: " ++ resp.Data ++ "\n"⟩]

/-- The five subscription and registration calls of a successful `OpenWebsocket`. -/
def registrationCalls : List Effect :=
  [Effect.SubscribeSelf, Effect.Subscribe "metrics", Effect.AddHandler,
    Effect.AddDisconnectHandler, Effect.AddReconnectHandler]

/-- The method `websocketReceive`, given the event pointer (`none` for `nil`) and the
transport error (`none` for `nil`): the receiver afterwards and the effects, or `none`
when the call ends in a runtime panic. -/
def websocketReceive (m : Metrics) (resp : Option WebsocketResponse) (err : Option String) :
    Option (Metrics × List Effect) :=
  match err with
  | some e => some (m, [Effect.log ⟨.ErrorLevel, "Websocket received err: " ++ e ++ "\n"⟩])
  | none =>
    match resp with
    | none => none
    | some r =>
      match routeOrigin m r with
      | none => none
      | some calls => some (m, recvLogs r ++ calls)

/-- The method `disconnectHandler`. -/
def disconnectHandler (env : Env) (m : Metrics) : Metrics × List Effect :=
  (m, Effect.log ⟨.DebugLevel, "Calling disconnect handlers"⟩ ::
    (env.rangeOrder m.serviceMetrics).map (fun service => Effect.call service.2 .Disconnected))

/-- The method `reconnectHandler`. -/
def reconnectHandler (env : Env) (m : Metrics) : Metrics × List Effect :=
  (m, Effect.log ⟨.DebugLevel, "Calling reconnect handlers"⟩ ::
    (env.rangeOrder m.serviceMetrics).map (fun service => Effect.call service.2 .Reconnected))

/-- The handler calls among a list of effects. -/
def handlerCalls (trace : List Effect) : List (serviceMetrics × Method) :=
  trace.filterMap (fun e => match e with
    | .call handler method => some (handler, method)
    | _ => none)

/-- The error-level log entries among a list of effects. -/
def errorLogs (trace : List Effect) : List LogEntry :=
  trace.filterMap (fun e => match e with
    | .log entry => if entry.level = .ErrorLevel then some entry else none
    | _ => none)

/-- The origins the `switch` of `websocketReceive` knows, each with the table key and
the handler of that subsystem (specification side). -/
def knownOrigins : List (String × chikService × serviceMetrics) :=
  [("chik_full_node", "full_node", .FullNodeServiceMetrics),
   ("chik_wallet", "wallet", .WalletServiceMetrics),
   ("chik_crawler", "crawler", .CrawlerServiceMetrics),
   ("chik_timelord", "timelord", .TimelordServiceMetrics),
   ("chik_harvester", "harvester", .HarvesterServiceMetrics),
   ("chik_farmer", "farmer", .FarmerServiceMetrics)]

/-! ## Metric constructors and the registry -/

/-- The fields of `prometheus.GaugeOpts` and `prometheus.CounterOpts` the source fills in. -/
structure Opts where
  Namespace : String
  Subsystem : String
  Name : String
  Help : String
deriving DecidableEq, Repr

/-- The four kinds of metric the constructors return: `LazyGauge`, `LazyCounter`,
`GaugeVec` and `CounterVec`. -/
inductive MetricKind
  | lazyGauge | lazyCounter | gaugeVec | counterVec
deriving DecidableEq, Repr

/-- A metric object on the heap.  `labels` are the variable label names, `Registry` is
the registry address a lazy wrapper carries, `registered` is the flag of a lazy
wrapper, and `series` are the samples the object would collect: one unlabelled value
for a plain gauge or counter, one per child for a vector. -/
structure MetricObj where
  kind : MetricKind
  opts : Opts
  labels : List String
  Registry : Nat
  registered : Bool
  series : List (List String × ℚ)
deriving DecidableEq, Repr

/-- The metric objects built through one `Metrics` (a handle is an index into `heap`)
and the handles registered with its registry, in order of registration. -/
structure MetricStore where
  heap : List MetricObj
  registered : List Nat
deriving DecidableEq, Repr

/-- The store right after `prometheus.NewRegistry()`. -/
def MetricStore.empty : MetricStore := ⟨[], []⟩

/-- The fully qualified name under which a metric is exported, parts joined with `_`. -/
def fqName (o : Opts) : String :=
  if o.Name = "" then ""
  else (if o.Namespace = "" then "" else o.Namespace ++ "_") ++
    (if o.Subsystem = "" then "" else o.Subsystem ++ "_") ++ o.Name

/-- The names of the registered metrics. -/
def registeredNames (s : MetricStore) : List String :=
  s.registered.filterMap (fun h => (s.heap[h]?).map (fun o => fqName o.opts))

/-- Modelled from the spec: the registry operation `register(metric)`, which lives in
the metrics library and not in this package.  It adds the metric and fails (`none`,
the panic of `MustRegister`) when the same identity is registered already. -/
def MustRegister (s : MetricStore) (h : Nat) : Option MetricStore :=
  match s.heap[h]? with
  | none => none
  | some o =>
    if fqName o.opts ∈ registeredNames s then none
    else some { s with registered := s.registered ++ [h] }

/-- The method `newGauge`: a lazy gauge is built around a fresh gauge and the registry
address; nothing is registered. -/
def newGauge (m : Metrics) (s : MetricStore) (service : chikService) (name help : String) :
    MetricStore × Nat :=
  let lg : MetricObj :=
    { kind := .lazyGauge, opts := ⟨"chik", service, name, help⟩, labels := [],
      Registry := m.registry, registered := false, series := [([], 0)] }
  ({ s with heap := s.heap ++ [lg] }, s.heap.length)

/-- The method `newCounter`: a lazy counter, built like a lazy gauge. -/
def newCounter (m : Metrics) (s : MetricStore) (service : chikService) (name help : String) :
    MetricStore × Nat :=
  let lc : MetricObj :=
    { kind := .lazyCounter, opts := ⟨"chik", service, name, help⟩, labels := [],
      Registry := m.registry, registered := false, series := [([], 0)] }
  ({ s with heap := s.heap ++ [lc] }, s.heap.length)

/-- The method `newGaugeVec`: the vector is built without children and registered at
once with `m.registry.MustRegister`. -/
def newGaugeVec (m : Metrics) (s : MetricStore) (service : chikService) (name help : String)
    (labels : List String) : Option (MetricStore × Nat) :=
  let gm : MetricObj :=
    { kind := .gaugeVec, opts := ⟨"chik", service, name, help⟩, labels := labels,
      Registry := m.registry, registered := false, series := [] }
  (MustRegister { s with heap := s.heap ++ [gm] } s.heap.length).map
    (fun s1 => (s1, s.heap.length))

/-- The method `newCounterVec`: as `newGaugeVec`, for a counter vector. -/
def newCounterVec (m : Metrics) (s : MetricStore) (service : chikService) (name help : String)
    (labels : List String) : Option (MetricStore × Nat) :=
  let gm : MetricObj :=
    { kind := .counterVec, opts := ⟨"chik", service, name, help⟩, labels := labels,
      Registry := m.registry, registered := false, series := [] }
  (MustRegister { s with heap := s.heap ++ [gm] } s.heap.length).map
    (fun s1 => (s1, s.heap.length))

/-- Modelled from the spec: the write of a Lazy Metric Handle (`LazyGauge.Set`,
`LazyCounter.Add`), which lives in a helper library and not in this package.  The
first call registers the handle with the registry, exactly once, and then applies the
update; later calls only update.  `apply` is the new value from the old one. -/
def lazyWrite (s : MetricStore) (h : Nat) (o : MetricObj) (apply : ℚ → ℚ) :
    Option MetricStore :=
  let old : ℚ := (mapGet o.series []).getD 0
  let written : MetricObj := { o with registered := true, series := [([], apply old)] }
  (if o.registered then some s else MustRegister s h).map
    (fun s1 => { s1 with heap := s1.heap.set h written })

/-- Modelled from the spec: the write of a vector metric
(`vec.WithLabelValues(values...).Set(v)` or `.Add(v)`), which lives in the metrics
library: the child for these label values is created when missing, then updated.  A
wrong number of label values is a panic (`none`). -/
def vecWrite (s : MetricStore) (h : Nat) (o : MetricObj) (values : List String)
    (apply : ℚ → ℚ) : Option MetricStore :=
  if values.length = o.labels.length then
    let old : ℚ := (mapGet o.series values).getD 0
    some { s with heap := s.heap.set h { o with series := mapSet o.series values (apply old) } }
  else none

/-- One update of the metric behind a handle: `Set(v)` for gauges, `Add(v)` for
counters (a negative `v` is a panic), on the child named by `values` for vectors. -/
def updateMetric (s : MetricStore) (h : Nat) (values : List String) (v : ℚ) :
    Option MetricStore :=
  match s.heap[h]? with
  | none => none
  | some o =>
    match o.kind with
    | .lazyGauge => if values = [] then lazyWrite s h o (fun _ => v) else none
    | .lazyCounter =>
      if values = [] ∧ 0 ≤ v then lazyWrite s h o (fun old => old + v) else none
    | .gaugeVec => vecWrite s h o values (fun _ => v)
    | .counterVec => if 0 ≤ v then vecWrite s h o values (fun old => old + v) else none

/-- Modelled from the spec: the registry operation `snapshot()`, the scrape: every
sample of every registered metric, as name, label values and value. -/
def scrape (s : MetricStore) : List (String × List String × ℚ) :=
  s.registered.flatMap (fun h =>
    match s.heap[h]? with
    | some o => o.series.map (fun lv => (fqName o.opts, lv.1, lv.2))
    | none => [])

/-- The metric names present in a scrape. -/
def scrapeNames (s : MetricStore) : List String := (scrape s).map Prod.fst

/-- What a service handler can do with metrics: build one with a constructor of
`Metrics`, or update one it holds. -/
inductive MetricOp
  | newGauge (service : chikService) (name help : String)
  | newCounter (service : chikService) (name help : String)
  | newGaugeVec (service : chikService) (name help : String) (labels : List String)
  | newCounterVec (service : chikService) (name help : String) (labels : List String)
  | update (h : Nat) (values : List String) (v : ℚ)
deriving DecidableEq, Repr

/-- One operation on the store; `none` is a panic. -/
def stepMetric (m : Metrics) (s : MetricStore) : MetricOp → Option MetricStore
  | .newGauge service name help => some (newGauge m s service name help).1
  | .newCounter service name help => some (newCounter m s service name help).1
  | .newGaugeVec service name help labels =>
    (newGaugeVec m s service name help labels).map Prod.fst
  | .newCounterVec service name help labels =>
    (newCounterVec m s service name help labels).map Prod.fst
  | .update h values v => updateMetric s h values v

/-- A sequence of operations, stopping at the first panic. -/
def runMetricOps (m : Metrics) : MetricStore → List MetricOp → Option MetricStore
  | s, [] => some s
  | s, op :: rest =>
    match stepMetric m s op with
    | none => none
    | some s1 => runMetricOps m s1 rest

/-- The handles that received an update in a sequence of operations. -/
def updatedHandles (ops : List MetricOp) : List Nat :=
  ops.filterMap (fun op => match op with
    | .update h _ _ => some h
    | _ => none)

/-- Whether a metric is one of the lazy wrappers. -/
def MetricKind.isLazy : MetricKind → Bool
  | .lazyGauge => true
  | .lazyCounter => true
  | .gaugeVec => false
  | .counterVec => false

/-- What holds of a store in which exactly the handles in `updated` received an
update: a metric exposes samples exactly when it was updated; a lazy wrapper always
holds a value and is registered once its flag is set; a vector is always registered;
handles point into the heap. -/
structure StoreInv (s : MetricStore) (updated : List Nat) : Prop where
  bound : ∀ i ∈ s.registered, i < s.heap.length
  updatedBound : ∀ i ∈ updated, i < s.heap.length
  exposed : ∀ i o, s.heap[i]? = some o →
    ((i ∈ s.registered ∧ o.series ≠ []) ↔ i ∈ updated)
  lazyOk : ∀ i o, s.heap[i]? = some o → o.kind.isLazy = true →
    o.series ≠ [] ∧ (o.registered = true → i ∈ s.registered)
  vecOk : ∀ i o, s.heap[i]? = some o → o.kind.isLazy = false → i ∈ s.registered

/-- A sample `Metrics`, as `NewMetrics` builds it. -/
def sampleMetrics : Metrics :=
  { metricsPort := 9914, client := ⟨.ConnectionModeWebsocket⟩,
    httpClient := some ⟨.ConnectionModeHTTP⟩, registry := 0, serviceMetrics := registerServices }

/-- A sample sequence: a lazy gauge and a gauge vector are built, the vector is updated. -/
def sampleMetricOps : List MetricOp :=
  [.newGauge "full_node" "difficulty" "Current network difficulty",
   .newGaugeVec "full_node" "connection_count" "Number of active connections" ["node_type"],
   .update 1 ["wallet"] 2]

/-- The store after the sample sequence. -/
def sampleStore : MetricStore :=
  { heap :=
      [{ kind := .lazyGauge,
         opts := ⟨"chik", "full_node", "difficulty", "Current network difficulty"⟩,
         labels := [], Registry := 0, registered := false, series := [([], 0)] },
       { kind := .gaugeVec,
         opts := ⟨"chik", "full_node", "connection_count", "Number of active connections"⟩,
         labels := ["node_type"], Registry := 0, registered := false,
         series := [(["wallet"], 2)] }],
    registered := [1] }

/-- The connections of the sample scenario: two wallets and a farmer. -/
def sampleConnections : List Connection :=
  [⟨.NodeTypeWallet⟩, ⟨.NodeTypeWallet⟩, ⟨.NodeTypeFarmer⟩]

/-- The event of the sample scenario. -/
def sampleConnectionsEvent : WebsocketResponse :=
  ⟨"node_a", "connections", "metrics", "two wallets and a farmer"⟩

/-- A decoder that reads the payload of the sample scenario and rejects any other. -/
def sampleConnectionsUnmarshal : Unmarshal GetConnectionsResponse := fun data =>
  if data = "two wallets and a farmer" then .ok ⟨some sampleConnections⟩
  else .error "unexpected end of JSON input"

/-- A sample event from the wallet. -/
def sampleWalletEvent : WebsocketResponse :=
  ⟨"chik_wallet", "get_connections", "metrics", "raw payload"⟩

/-- A sample event from an origin the dispatcher does not know. -/
def sampleUnknownEvent : WebsocketResponse :=
  ⟨"node_a", "connections", "metrics", "raw payload"⟩

/-- Surroundings in which every step succeeds and `range` visits a map back to front. -/
def sampleEnv : Env :=
  { NewClient := fun mode => .ok ⟨mode⟩, SubscribeSelf := none, Subscribe := fun _ => none,
    AddHandler := none, NewRegistry := 0, rangeOrder := List.reverse }

/-- Surroundings in which only building the HTTP client fails. -/
def sampleEnvNoHTTP : Env :=
  { sampleEnv with
    NewClient := fun mode =>
      match mode with
      | .ConnectionModeWebsocket => .ok ⟨mode⟩
      | .ConnectionModeHTTP => .error "no crawler section" }

/-! ## Sequences of events -/

/-- The connection-count vector after a sequence of events went through
`connectionCountHelper`. -/
def connectionRun (jsonUnmarshal : Unmarshal GetConnectionsResponse)
    (events : List WebsocketResponse) (connectionCount : GaugeVec) : GaugeVec :=
  events.foldl (fun g resp => (connectionCountHelper jsonUnmarshal resp g).1) connectionCount

/-- The debug vector after a sequence of events went through `debugHelper`. -/
def debugRun (jsonUnmarshal : Unmarshal debugEvent)
    (events : List WebsocketResponse) (debugGaugeVec : GaugeVec) : GaugeVec :=
  events.foldl (fun g resp => (debugHelper jsonUnmarshal resp g).1) debugGaugeVec

/-- The number of distinct label values that have a child. -/
def labelCount (g : GaugeVec) : Nat := (gaugeLabels g).toFinset.card

/-- The keys carried by the events of a sequence that decode. -/
def debugKeys (jsonUnmarshal : Unmarshal debugEvent) (events : List WebsocketResponse) :
    List String :=
  events.flatMap (fun resp =>
    match jsonUnmarshal resp.Data with
    | .ok debugMetrics => debugMetrics.Data.map Prod.fst
    | .error _ => [])

/-- A decoder for payloads that hold one key with the value zero: the payload text
stands for the key. -/
def singleKeyUnmarshal : Unmarshal debugEvent := fun data => .ok ⟨[(data, 0)]⟩

/-- A debug event with the given payload. -/
def debugEventOf (data : String) : WebsocketResponse := ⟨"chik_full_node", "debug", "", data⟩

/-- The payloads `""`, `"a"`, `"aa"`, ... : `n` pairwise different keys. -/
def distinctPayloads (n : Nat) : List String :=
  (List.range n).map (fun i => String.mk (List.replicate i 'a'))

/-! ## Facts about maps -/

theorem mapGet_mapSet_same {κ α : Type} [DecidableEq κ] (g : List (κ × α)) (l : κ) (v : α) :
    mapGet (mapSet g l v) l = some v := by
  induction g with
  | nil => simp [mapSet, mapGet]
  | cons hd tl ih =>
    obtain ⟨k, w⟩ := hd
    by_cases hk : k = l
    · simp [mapSet, mapGet, hk]
    · simp [mapSet, mapGet, hk, ih]

theorem mapGet_mapSet_ne {κ α : Type} [DecidableEq κ] (g : List (κ × α)) (l l2 : κ) (v : α)
    (hne : l ≠ l2) : mapGet (mapSet g l v) l2 = mapGet g l2 := by
  induction g with
  | nil => simp [mapSet, mapGet, hne]
  | cons hd tl ih =>
    obtain ⟨k, w⟩ := hd
    by_cases hk : k = l
    · subst hk
      simp [mapSet, mapGet, hne]
    · by_cases hk2 : k = l2
      · subst hk2
        simp [mapSet, mapGet, hk]
      · simp [mapSet, mapGet, hk, hk2, ih]

theorem mapSet_keys_toFinset {α : Type} (g : List (String × α)) (l : String) (v : α) :
    ((mapSet g l v).map Prod.fst).toFinset = insert l (g.map Prod.fst).toFinset := by
  induction g with
  | nil => simp [mapSet]
  | cons hd tl ih =>
    obtain ⟨k, w⟩ := hd
    by_cases hk : k = l
    · subst hk
      simp [mapSet]
    · simp only [mapSet, hk, if_false, List.map_cons, List.toFinset_cons, ih]
      exact Finset.Insert.comm k l _

theorem mapSet_keys_of_not_mem {α : Type} (g : List (String × α)) (l : String) (v : α)
    (hl : l ∉ g.map Prod.fst) : (mapSet g l v).map Prod.fst = g.map Prod.fst ++ [l] := by
  induction g with
  | nil => simp [mapSet]
  | cons hd tl ih =>
    obtain ⟨k, w⟩ := hd
    have hk : k ≠ l := by
      intro h
      exact hl (by simp [h])
    have htl : l ∉ tl.map Prod.fst := by
      intro h
      exact hl (by simp only [List.map_cons, List.mem_cons]; exact Or.inr h)
    simp [mapSet, hk, ih htl]

/-! ## Facts about the helpers -/

theorem foldl_countConnection (L : List Connection) (c : ConnCounters) :
    L.foldl countConnection c =
      ⟨c.fullNode + connectionsOfType .NodeTypeFullNode L,
       c.harvester + connectionsOfType .NodeTypeHarvester L,
       c.farmer + connectionsOfType .NodeTypeFarmer L,
       c.timelord + connectionsOfType .NodeTypeTimelord L,
       c.introducer + connectionsOfType .NodeTypeIntroducer L,
       c.wallet + connectionsOfType .NodeTypeWallet L⟩ := by
  induction L generalizing c with
  | nil => simp [connectionsOfType]
  | cons hd tl ih =>
    obtain ⟨t⟩ := hd
    rw [List.foldl_cons, ih]
    cases t <;>
      simp [countConnection, connectionsOfType, List.filter_cons] <;>
      ring_nf

theorem foldl_gaugeSet_of_not_mem (D : List (String × ℚ)) (g : GaugeVec) (k : String)
    (hk : k ∉ D.map Prod.fst) :
    mapGet (D.foldl (fun g kv => gaugeSet g kv.1 kv.2) g) k = mapGet g k := by
  induction D generalizing g with
  | nil => rfl
  | cons hd tl ih =>
    obtain ⟨k1, v1⟩ := hd
    simp only [List.map_cons, List.mem_cons, not_or] at hk
    rw [List.foldl_cons, ih _ hk.2]
    exact mapGet_mapSet_ne g k1 k v1 (fun h => hk.1 h.symm)

theorem foldl_gaugeSet_of_mem (D : List (String × ℚ)) (g : GaugeVec) (k : String) (v : ℚ)
    (hnodup : (D.map Prod.fst).Nodup) (hmem : (k, v) ∈ D) :
    mapGet (D.foldl (fun g kv => gaugeSet g kv.1 kv.2) g) k = some v := by
  induction D generalizing g with
  | nil => simp at hmem
  | cons hd tl ih =>
    obtain ⟨k1, v1⟩ := hd
    simp only [List.map_cons, List.nodup_cons] at hnodup
    rw [List.foldl_cons]
    rcases List.mem_cons.mp hmem with heq | htl
    · obtain ⟨rfl, rfl⟩ := Prod.mk.inj heq
      rw [foldl_gaugeSet_of_not_mem tl _ k hnodup.1]
      exact mapGet_mapSet_same g k v
    · exact ih _ hnodup.2 htl

/-! ## The claims about the helpers -/

/-- C1: when the payload decodes to a connections list `L`, then after
`connectionCountHelper`, whatever the gauge vector held before, each of the six labels
`full_node`, `harvester`, `farmer`, `timelord`, `introducer` and `wallet` reads exactly
the number of entries of `L` with that node type (zero when there is none), and
nothing is logged. -/
theorem connectionCountHelper_reads_counts (jsonUnmarshal : Unmarshal GetConnectionsResponse)
    (resp : WebsocketResponse) (connectionCount : GaugeVec) (L : List Connection)
    (hdec : jsonUnmarshal resp.Data = .ok ⟨some L⟩) :
    gaugeRead (connectionCountHelper jsonUnmarshal resp connectionCount).1 "full_node"
        = some (connectionsOfType .NodeTypeFullNode L : ℚ) ∧
    gaugeRead (connectionCountHelper jsonUnmarshal resp connectionCount).1 "harvester"
        = some (connectionsOfType .NodeTypeHarvester L : ℚ) ∧
    gaugeRead (connectionCountHelper jsonUnmarshal resp connectionCount).1 "farmer"
        = some (connectionsOfType .NodeTypeFarmer L : ℚ) ∧
    gaugeRead (connectionCountHelper jsonUnmarshal resp connectionCount).1 "timelord"
        = some (connectionsOfType .NodeTypeTimelord L : ℚ) ∧
    gaugeRead (connectionCountHelper jsonUnmarshal resp connectionCount).1 "introducer"
        = some (connectionsOfType .NodeTypeIntroducer L : ℚ) ∧
    gaugeRead (connectionCountHelper jsonUnmarshal resp connectionCount).1 "wallet"
        = some (connectionsOfType .NodeTypeWallet L : ℚ) ∧
    (connectionCountHelper jsonUnmarshal resp connectionCount).2 = [] := by
  have hne : ∀ a b : String, a ≠ b → ∀ (g : GaugeVec) (v : ℚ),
      mapGet (mapSet g a v) b = mapGet g b := fun a b h g v => mapGet_mapSet_ne g a b v h
  simp only [connectionCountHelper, hdec, writeCounters, tallyConnections,
    foldl_countConnection, gaugeRead, gaugeSet, ConnCounters.zero, zero_add]
  refine ⟨?_, ?_, ?_, ?_, ?_, ?_, trivial⟩
  · rw [hne _ _ (by decide), hne _ _ (by decide), hne _ _ (by decide), hne _ _ (by decide),
      hne _ _ (by decide), mapGet_mapSet_same]
  · rw [hne _ _ (by decide), hne _ _ (by decide), hne _ _ (by decide), hne _ _ (by decide),
      mapGet_mapSet_same]
  · rw [hne _ _ (by decide), hne _ _ (by decide), hne _ _ (by decide), mapGet_mapSet_same]
  · rw [hne _ _ (by decide), hne _ _ (by decide), mapGet_mapSet_same]
  · rw [hne _ _ (by decide), mapGet_mapSet_same]
  · rw [mapGet_mapSet_same]

/-- The scenario of C1: the connections `[wallet, wallet, farmer]`, on a vector that
read other values before, give `wallet = 2`, `farmer = 1` and `0` for the other four. -/
theorem connectionCountHelper_reads_counts_witness :
    sampleConnectionsUnmarshal sampleConnectionsEvent.Data = .ok ⟨some sampleConnections⟩ ∧
    gaugeRead (connectionCountHelper sampleConnectionsUnmarshal sampleConnectionsEvent
      [("wallet", 9), ("full_node", 4)]).1 "wallet" = some 2 ∧
    gaugeRead (connectionCountHelper sampleConnectionsUnmarshal sampleConnectionsEvent
      [("wallet", 9), ("full_node", 4)]).1 "farmer" = some 1 ∧
    gaugeRead (connectionCountHelper sampleConnectionsUnmarshal sampleConnectionsEvent
      [("wallet", 9), ("full_node", 4)]).1 "full_node" = some 0 ∧
    gaugeRead (connectionCountHelper sampleConnectionsUnmarshal sampleConnectionsEvent
      [("wallet", 9), ("full_node", 4)]).1 "harvester" = some 0 ∧
    gaugeRead (connectionCountHelper sampleConnectionsUnmarshal sampleConnectionsEvent
      [("wallet", 9), ("full_node", 4)]).1 "timelord" = some 0 ∧
    gaugeRead (connectionCountHelper sampleConnectionsUnmarshal sampleConnectionsEvent
      [("wallet", 9), ("full_node", 4)]).1 "introducer" = some 0 := by
  have h := connectionCountHelper_reads_counts sampleConnectionsUnmarshal
    sampleConnectionsEvent [("wallet", 9), ("full_node", 4)] sampleConnections rfl
  refine ⟨rfl, ?_, ?_, ?_, ?_, ?_, ?_⟩
  · rw [h.2.2.2.2.2.1]; simp [connectionsOfType, sampleConnections]
  · rw [h.2.2.1]; simp [connectionsOfType, sampleConnections]
  · rw [h.1]; simp [connectionsOfType, sampleConnections]
  · rw [h.2.1]; simp [connectionsOfType, sampleConnections]
  · rw [h.2.2.2.1]; simp [connectionsOfType, sampleConnections]
  · rw [h.2.2.2.2.1]; simp [connectionsOfType, sampleConnections]

/-- C2: when decoding the payload fails, `connectionCountHelper` and `debugHelper`
return the gauge vector they were given, unchanged (so no value moves and no label is
created), and emit exactly one log entry, at error level. -/
theorem helpers_drop_malformed_payload
    (unmarshalConnections : Unmarshal GetConnectionsResponse)
    (unmarshalDebug : Unmarshal debugEvent)
    (resp1 resp2 : WebsocketResponse) (connectionCount debugGaugeVec : GaugeVec)
    (err1 err2 : String)
    (h1 : unmarshalConnections resp1.Data = .error err1)
    (h2 : unmarshalDebug resp2.Data = .error err2) :
    connectionCountHelper unmarshalConnections resp1 connectionCount
        = (connectionCount, [⟨.ErrorLevel, "Error unmarshalling: " ++ err1 ++ "\n"⟩]) ∧
    debugHelper unmarshalDebug resp2 debugGaugeVec
        = (debugGaugeVec,
            [⟨.ErrorLevel, "Error unmarshalling debugMetrics: " ++ err2 ++ "\n"⟩]) := by
  simp [connectionCountHelper, debugHelper, h1, h2]

/-- The scenario of C2: a truncated payload leaves `wallet = 2` as it was in both
vectors and logs once. -/
theorem helpers_drop_malformed_payload_witness :
    connectionCountHelper (fun _ => .error "unexpected end of JSON input")
        ⟨"chik_full_node", "get_connections", "", "[[truncated"⟩ [("wallet", 2)]
        = ([("wallet", 2)],
            [⟨.ErrorLevel, "Error unmarshalling: " ++ "unexpected end of JSON input" ++ "\n"⟩]) ∧
    debugHelper (fun _ => .error "unexpected end of JSON input")
        ⟨"chik_full_node", "debug", "", "[[truncated"⟩ [("wallet", 2)]
        = ([("wallet", 2)],
            [⟨.ErrorLevel,
              "Error unmarshalling debugMetrics: " ++ "unexpected end of JSON input" ++ "\n"⟩]) :=
  helpers_drop_malformed_payload (fun _ => .error "unexpected end of JSON input")
    (fun _ => .error "unexpected end of JSON input")
    ⟨"chik_full_node", "get_connections", "", "[[truncated"⟩
    ⟨"chik_full_node", "debug", "", "[[truncated"⟩ [("wallet", 2)] [("wallet", 2)]
    "unexpected end of JSON input" "unexpected end of JSON input" rfl rfl

/-- C5: when the payload decodes to a map `D` (a Go map, so its keys are pairwise
different), then after `debugHelper`, whatever the vector held before, the label `k`
reads exactly `D[k]` for every key `k` of `D`, every label that is not a key of `D`
reads what it read before (absent when it was absent), and nothing is logged. -/
theorem debugHelper_sets_each_key (jsonUnmarshal : Unmarshal debugEvent)
    (resp : WebsocketResponse) (debugGaugeVec : GaugeVec) (D : debugEvent)
    (hdec : jsonUnmarshal resp.Data = .ok D)
    (hkeys : (D.Data.map Prod.fst).Nodup) :
    (∀ k v, (k, v) ∈ D.Data →
      gaugeRead (debugHelper jsonUnmarshal resp debugGaugeVec).1 k = some v) ∧
    (∀ k, k ∉ D.Data.map Prod.fst →
      gaugeRead (debugHelper jsonUnmarshal resp debugGaugeVec).1 k
        = gaugeRead debugGaugeVec k) ∧
    (debugHelper jsonUnmarshal resp debugGaugeVec).2 = [] := by
  simp only [debugHelper, hdec, gaugeRead]
  exact ⟨fun k v hmem => foldl_gaugeSet_of_mem D.Data _ k v hkeys hmem,
    fun k hk => foldl_gaugeSet_of_not_mem D.Data _ k hk, trivial⟩

/-- The scenario of C5: the data `foo = 3.5` on an empty vector gives `foo` the value
`3.5` and leaves `bar` absent. -/
theorem debugHelper_sets_each_key_witness :
    gaugeRead (debugHelper (fun _ => .ok ⟨[("foo", 7 / 2)]⟩)
      ⟨"chik_full_node", "debug", "", "payload"⟩ []).1 "foo" = some (7 / 2) ∧
    gaugeRead (debugHelper (fun _ => .ok ⟨[("foo", 7 / 2)]⟩)
      ⟨"chik_full_node", "debug", "", "payload"⟩ []).1 "bar" = none := by
  have h := debugHelper_sets_each_key (fun _ => .ok ⟨[("foo", 7 / 2)]⟩)
    ⟨"chik_full_node", "debug", "", "payload"⟩ [] ⟨[("foo", 7 / 2)]⟩ rfl (by simp)
  exact ⟨h.1 "foo" (7 / 2) (by simp), (h.2.1 "bar" (by simp)).trans rfl⟩

/-! ## Label cardinality -/

/-- The six label values `connectionCountHelper` writes. -/
theorem connectionCountHelper_labels (jsonUnmarshal : Unmarshal GetConnectionsResponse)
    (resp : WebsocketResponse) (g : GaugeVec) :
    (gaugeLabels (connectionCountHelper jsonUnmarshal resp g).1).toFinset ⊆
      (gaugeLabels g).toFinset ∪ (connectionLabels.map Prod.fst).toFinset := by
  unfold connectionCountHelper
  cases hdec : jsonUnmarshal resp.Data with
  | error err => exact Finset.subset_union_left
  | ok connections =>
    simp only [writeCounters, gaugeLabels, gaugeSet, mapSet_keys_toFinset, connectionLabels]
    intro x hx
    simp only [Finset.mem_insert, Finset.mem_union, List.mem_toFinset, List.map_cons,
      List.map_nil, List.mem_cons, List.mem_nil_iff, or_false] at hx ⊢
    tauto

theorem connectionRun_labels (jsonUnmarshal : Unmarshal GetConnectionsResponse)
    (events : List WebsocketResponse) (g : GaugeVec) :
    (gaugeLabels (connectionRun jsonUnmarshal events g)).toFinset ⊆
      (gaugeLabels g).toFinset ∪ (connectionLabels.map Prod.fst).toFinset := by
  induction events generalizing g with
  | nil => exact Finset.subset_union_left
  | cons resp rest ih =>
    have h1 := ih (connectionCountHelper jsonUnmarshal resp g).1
    have h2 := connectionCountHelper_labels jsonUnmarshal resp g
    simp only [connectionRun, List.foldl_cons] at h1 ⊢
    intro x hx
    have h3 := h1 hx
    rcases Finset.mem_union.mp h3 with h4 | h4
    · exact h2 h4
    · exact Finset.mem_union_right _ h4

theorem foldl_gaugeSet_labels (D : List (String × ℚ)) (g : GaugeVec) :
    (gaugeLabels (D.foldl (fun g kv => gaugeSet g kv.1 kv.2) g)).toFinset =
      (gaugeLabels g).toFinset ∪ (D.map Prod.fst).toFinset := by
  induction D generalizing g with
  | nil => simp
  | cons hd tl ih =>
    rw [List.foldl_cons, ih]
    simp only [gaugeLabels, gaugeSet, mapSet_keys_toFinset, List.map_cons, List.toFinset_cons]
    ext x
    simp only [Finset.mem_union, Finset.mem_insert]
    tauto

theorem debugRun_labels (jsonUnmarshal : Unmarshal debugEvent)
    (events : List WebsocketResponse) (g : GaugeVec) :
    (gaugeLabels (debugRun jsonUnmarshal events g)).toFinset =
      (gaugeLabels g).toFinset ∪ (debugKeys jsonUnmarshal events).toFinset := by
  induction events generalizing g with
  | nil => simp [debugRun, debugKeys]
  | cons resp rest ih =>
    have h1 := ih (debugHelper jsonUnmarshal resp g).1
    simp only [debugRun, List.foldl_cons, debugKeys, List.flatMap_cons, List.toFinset_append]
      at h1 ⊢
    rw [h1]
    unfold debugHelper
    cases hdec : jsonUnmarshal resp.Data with
    | error err => simp
    | ok debugMetrics =>
      simp only [foldl_gaugeSet_labels]
      rw [Finset.union_assoc]

theorem distinctPayloads_nodup (n : Nat) : (distinctPayloads n).Nodup := by
  unfold distinctPayloads
  refine List.Nodup.map ?_ (List.nodup_range n)
  intro i j hij
  have h1 : List.replicate i 'a' = List.replicate j 'a' := congrArg String.data hij
  have h2 := congrArg List.length h1
  simpa using h2

theorem debugRun_singleKey (keys : List String) (g : GaugeVec)
    (hnodup : (gaugeLabels g ++ keys).Nodup) :
    gaugeLabels (debugRun singleKeyUnmarshal (keys.map debugEventOf) g)
      = gaugeLabels g ++ keys := by
  induction keys generalizing g with
  | nil => simp [debugRun]
  | cons k rest ih =>
    have hk : k ∉ g.map Prod.fst := by
      intro hmem
      have := (List.nodup_append.mp hnodup).2.2
      exact this hmem (List.mem_cons_self k rest)
    have hstep : (debugHelper singleKeyUnmarshal (debugEventOf k) g).1 = mapSet g k 0 := by
      simp [debugHelper, singleKeyUnmarshal, debugEventOf, gaugeSet]
    have hlab : gaugeLabels (mapSet g k 0) = gaugeLabels g ++ [k] :=
      mapSet_keys_of_not_mem g k 0 hk
    have hnodup2 : (gaugeLabels (mapSet g k 0) ++ rest).Nodup := by
      rw [hlab, List.append_assoc]
      exact hnodup
    have h1 := ih (mapSet g k 0) hnodup2
    simp only [debugRun, List.map_cons, List.foldl_cons, hstep] at h1 ⊢
    rw [h1, hlab, List.append_assoc]
    rfl

/-- C9, as stated, fails: no fixed bound `B` limits the number of distinct label
values in the vectors the two helpers update, because `debugHelper` turns every key
of every payload into a label value. -/
theorem no_fixed_label_bound :
    ¬ ∃ B : Nat,
      (∀ (jsonUnmarshal : Unmarshal GetConnectionsResponse) (events : List WebsocketResponse),
        labelCount (connectionRun jsonUnmarshal events []) ≤ B) ∧
      (∀ (jsonUnmarshal : Unmarshal debugEvent) (events : List WebsocketResponse),
        labelCount (debugRun jsonUnmarshal events []) ≤ B) := by
  rintro ⟨B, -, h⟩
  have h1 := h singleKeyUnmarshal ((distinctPayloads (B + 1)).map debugEventOf)
  have h2 := debugRun_singleKey (distinctPayloads (B + 1)) []
    (by simpa [gaugeLabels] using distinctPayloads_nodup (B + 1))
  have h3 : labelCount (debugRun singleKeyUnmarshal
      ((distinctPayloads (B + 1)).map debugEventOf) []) = B + 1 := by
    unfold labelCount
    rw [h2]
    simp only [gaugeLabels, List.map_nil, List.nil_append]
    rw [List.toFinset_card_of_nodup (distinctPayloads_nodup (B + 1))]
    simp [distinctPayloads]
  omega

/-- C9, amended: however many events are processed, `connectionCountHelper` adds at
most its six fixed label values to the vector it updates (at most six on a fresh
vector), and `debugHelper` adds exactly the keys it decoded, so the number of distinct
label values of its vector is bounded by the number of keys the events carried. -/
theorem label_count_bounds (unmarshalConnections : Unmarshal GetConnectionsResponse)
    (unmarshalDebug : Unmarshal debugEvent) (events : List WebsocketResponse) (g : GaugeVec) :
    labelCount (connectionRun unmarshalConnections events g) ≤ labelCount g + 6 ∧
    labelCount (connectionRun unmarshalConnections events []) ≤ 6 ∧
    (gaugeLabels (debugRun unmarshalDebug events g)).toFinset
      = (gaugeLabels g).toFinset ∪ (debugKeys unmarshalDebug events).toFinset ∧
    labelCount (debugRun unmarshalDebug events g)
      ≤ labelCount g + (debugKeys unmarshalDebug events).length := by
  have hsix : (connectionLabels.map Prod.fst).toFinset.card = 6 := by decide
  have hconn : ∀ g0 : GaugeVec,
      labelCount (connectionRun unmarshalConnections events g0) ≤ labelCount g0 + 6 := by
    intro g0
    unfold labelCount
    calc (gaugeLabels (connectionRun unmarshalConnections events g0)).toFinset.card
        ≤ ((gaugeLabels g0).toFinset ∪ (connectionLabels.map Prod.fst).toFinset).card :=
          Finset.card_le_card (connectionRun_labels unmarshalConnections events g0)
      _ ≤ (gaugeLabels g0).toFinset.card + (connectionLabels.map Prod.fst).toFinset.card :=
          Finset.card_union_le _ _
      _ = (gaugeLabels g0).toFinset.card + 6 := by rw [hsix]
  refine ⟨hconn g, ?_, debugRun_labels unmarshalDebug events g, ?_⟩
  · have h := hconn []
    simpa [labelCount, gaugeLabels] using h
  · unfold labelCount
    rw [debugRun_labels]
    calc ((gaugeLabels g).toFinset ∪ (debugKeys unmarshalDebug events).toFinset).card
        ≤ (gaugeLabels g).toFinset.card + (debugKeys unmarshalDebug events).toFinset.card :=
          Finset.card_union_le _ _
      _ ≤ (gaugeLabels g).toFinset.card + (debugKeys unmarshalDebug events).length :=
          Nat.add_le_add_left (List.toFinset_card_le _) _

/-! ## The dispatcher -/

theorem routeOrigin_known (m : Metrics) (resp : WebsocketResponse) (key : chikService)
    (own : serviceMetrics) (hmem : (resp.Origin, key, own) ∈ knownOrigins) :
    routeOrigin m resp = dispatch m key resp := by
  obtain ⟨origin, command, destination, data⟩ := resp
  simp only [knownOrigins, List.mem_cons, Prod.mk.injEq, List.mem_nil_iff, or_false] at hmem
  rcases hmem with h | h | h | h | h | h <;>
    obtain ⟨rfl, rfl, rfl⟩ := h <;>
    simp [routeOrigin, chikServiceFullNode, chikServiceWallet, chikServiceCrawler,
      chikServiceTimelord, chikServiceHarvester, chikServiceFarmer]

theorem routeOrigin_unknown (m : Metrics) (resp : WebsocketResponse)
    (hother : ∀ entry ∈ knownOrigins, entry.1 ≠ resp.Origin) :
    routeOrigin m resp = some [] := by
  obtain ⟨origin, command, destination, data⟩ := resp
  simp only [knownOrigins, List.mem_cons, List.mem_nil_iff, or_false, forall_eq_or_imp,
    forall_eq] at hother
  obtain ⟨h1, h2, h3, h4, h5, h6⟩ := hother
  unfold routeOrigin
  split <;> simp_all

/-- C3: for an event delivered without a transport error, when the origin is one of
the six known origins, `websocketReceive` makes exactly one handler call,
`ReceiveResponse` with the same event, on the handler the table holds under the key of
that subsystem; for every other origin it makes no handler call at all and ends
normally.  In both cases the only other effects are its two log calls. -/
theorem websocketReceive_routes (m : Metrics) (resp : WebsocketResponse) :
    (∀ key own handler, (resp.Origin, key, own) ∈ knownOrigins →
      mapGet m.serviceMetrics key = some handler →
      websocketReceive m (some resp) none
        = some (m, recvLogs resp ++ [Effect.call handler (.ReceiveResponse resp)])) ∧
    ((∀ entry ∈ knownOrigins, entry.1 ≠ resp.Origin) →
      websocketReceive m (some resp) none = some (m, recvLogs resp)) := by
  constructor
  · intro key own handler hmem hget
    simp [websocketReceive, routeOrigin_known m resp key own hmem, dispatch, hget]
  · intro hother
    simp [websocketReceive, routeOrigin_unknown m resp hother]

/-- The scenario of C3: an event of origin `chik_wallet` reaches the wallet handler
and no other; an event of origin `node_a` reaches no handler. -/
theorem websocketReceive_routes_witness :
    websocketReceive sampleMetrics (some sampleWalletEvent) none
      = some (sampleMetrics, recvLogs sampleWalletEvent ++
          [Effect.call .WalletServiceMetrics (.ReceiveResponse sampleWalletEvent)]) ∧
    websocketReceive sampleMetrics (some sampleUnknownEvent) none
      = some (sampleMetrics, recvLogs sampleUnknownEvent) :=
  ⟨(websocketReceive_routes sampleMetrics sampleWalletEvent).1 "wallet"
      .WalletServiceMetrics .WalletServiceMetrics (by decide) (by decide),
    (websocketReceive_routes sampleMetrics sampleUnknownEvent).2 (by decide)⟩

/-- C4: with a transport error, whatever the event argument is (`nil` included),
`websocketReceive` ends normally with a single effect, the error-level log entry of
that error: no handler is called, and the result does not depend on the event, which
is never read. -/
theorem websocketReceive_transport_error (m : Metrics)
    (resp other : Option WebsocketResponse) (e : String) :
    websocketReceive m resp (some e)
      = some (m, [Effect.log ⟨.ErrorLevel, "Websocket received err: " ++ e ++ "\n"⟩]) ∧
    websocketReceive m resp (some e) = websocketReceive m other (some e) ∧
    handlerCalls [Effect.log ⟨.ErrorLevel, "Websocket received err: " ++ e ++ "\n"⟩] = [] ∧
    errorLogs [Effect.log ⟨.ErrorLevel, "Websocket received err: " ++ e ++ "\n"⟩]
      = [⟨.ErrorLevel, "Websocket received err: " ++ e ++ "\n"⟩] := by
  refine ⟨rfl, rfl, rfl, ?_⟩
  simp [errorLogs]

theorem handlerCalls_map_call (services : ServiceTable) (method : Method) :
    handlerCalls (services.map (fun service => Effect.call service.2 method))
      = services.map (fun service => (service.2, method)) := by
  induction services with
  | nil => rfl
  | cons hd tl ih =>
    simp only [handlerCalls, List.map_cons, List.filterMap_cons] at ih ⊢
    rw [ih]

/-- C7: `NewMetrics` returns an error exactly when building the websocket client
fails, and `OpenWebsocket` exactly when `SubscribeSelf`, `Subscribe("metrics")` or
`AddHandler` fails; the error returned is the error of the first failing step, and on
such a return no handler method was called.  When the websocket client is built,
whether or not the HTTP client is, `NewMetrics` returns a `Metrics` with the
six-entry table, and each of the six handlers had `InitMetrics` called once. -/
theorem transport_errors_propagate (env : Env) (port : Nat) (logLevel : LogLevel)
    (m : Metrics) (hrange : ∀ t, (env.rangeOrder t).Perm t) :
    (∀ err, (NewMetrics env port logLevel).1 = .error err ↔
      env.NewClient .ConnectionModeWebsocket = .error err) ∧
    (∀ err, (NewMetrics env port logLevel).1 = .error err →
      handlerCalls (NewMetrics env port logLevel).2 = []) ∧
    (∀ client, env.NewClient .ConnectionModeWebsocket = .ok client →
      (∃ metrics, (NewMetrics env port logLevel).1 = .ok metrics ∧
        metrics.serviceMetrics = registerServices) ∧
      ∀ handler : serviceMetrics,
        (handlerCalls (NewMetrics env port logLevel).2).count (handler, .InitMetrics) = 1) ∧
    (∀ err, (OpenWebsocket env m).2.1 = some err ↔
      (env.SubscribeSelf = some err ∨
        (env.SubscribeSelf = none ∧ env.Subscribe "metrics" = some err) ∨
        (env.SubscribeSelf = none ∧ env.Subscribe "metrics" = none ∧
          env.AddHandler = some err))) ∧
    (∀ err, (OpenWebsocket env m).2.1 = some err →
      handlerCalls (OpenWebsocket env m).2.2 = []) := by
  refine ⟨?_, ?_, ?_, ?_, ?_⟩
  · intro err
    unfold NewMetrics
    cases hws : env.NewClient .ConnectionModeWebsocket with
    | error e => simp
    | ok client => simp
  · intro err
    unfold NewMetrics
    cases hws : env.NewClient .ConnectionModeWebsocket with
    | error e => intro _; rfl
    | ok client => simp
  · intro client hws
    unfold NewMetrics
    simp only [hws]
    refine ⟨⟨_, rfl, rfl⟩, ?_⟩
    intro handler
    have hcalls : ∀ (pre : List Effect) (services : ServiceTable),
        handlerCalls pre = [] →
        handlerCalls (pre ++ services.map (fun service => Effect.call service.2 .InitMetrics))
          = services.map (fun service => (service.2, Method.InitMetrics)) := by
      intro pre services hpre
      have := handlerCalls_map_call services .InitMetrics
      simp only [handlerCalls, List.filterMap_append] at hpre this ⊢
      rw [hpre, this, List.nil_append]
    rw [hcalls]
    · have hp := (hrange registerServices).map
        (fun service : chikService × serviceMetrics => (service.2, Method.InitMetrics))
      unfold List.count
      rw [hp.countP_eq]
      cases handler <;> decide
    · cases env.NewClient .ConnectionModeHTTP <;> rfl
  · intro err
    unfold OpenWebsocket
    cases h1 : env.SubscribeSelf with
    | some e1 => simp
    | none =>
      cases h2 : env.Subscribe "metrics" with
      | some e2 => simp
      | none =>
        cases h3 : env.AddHandler with
        | some e3 => simp
        | none => simp
  · intro err
    unfold OpenWebsocket
    cases h1 : env.SubscribeSelf with
    | some e1 => intro _; rfl
    | none =>
      cases h2 : env.Subscribe "metrics" with
      | some e2 => intro _; rfl
      | none =>
        cases h3 : env.AddHandler with
        | some e3 => intro _; rfl
        | none => simp

/-- The scenario of C7: when only the HTTP client cannot be built, `NewMetrics` still
returns a `Metrics` and every handler had `InitMetrics` called once. -/
theorem transport_errors_propagate_witness :
    (∀ t, (sampleEnvNoHTTP.rangeOrder t).Perm t) ∧
    sampleEnvNoHTTP.NewClient .ConnectionModeHTTP = .error "no crawler section" ∧
    ((∃ metrics, (NewMetrics sampleEnvNoHTTP 9914 .InfoLevel).1 = .ok metrics ∧
        metrics.serviceMetrics = registerServices) ∧
      ∀ handler : serviceMetrics,
        (handlerCalls (NewMetrics sampleEnvNoHTTP 9914 .InfoLevel).2).count
          (handler, .InitMetrics) = 1) :=
  ⟨fun t => List.reverse_perm t, rfl,
    (transport_errors_propagate sampleEnvNoHTTP 9914 .InfoLevel sampleMetrics
      (fun t => List.reverse_perm t)).2.2.1 ⟨.ConnectionModeWebsocket⟩ rfl⟩

theorem openServices_append (a b : ServiceTable) :
    openServices (a ++ b) = openServices a ++ openServices b := by
  simp [openServices, List.flatMap_append]

theorem mem_openServices (services : ServiceTable) (handler : serviceMetrics) (method : Method)
    (hmem : Effect.call handler method ∈ openServices services) :
    handler ∈ services.map Prod.snd := by
  induction services with
  | nil => simp [openServices] at hmem
  | cons hd tl ih =>
    have hsplit : openServices (hd :: tl) = openServices [hd] ++ openServices tl :=
      openServices_append [hd] tl
    rw [hsplit, List.mem_append] at hmem
    rcases hmem with h | h
    · simp only [openServices, List.flatMap_cons, List.flatMap_nil, List.append_nil,
        List.mem_cons, Effect.call.injEq, List.mem_nil_iff, or_false] at h
      rcases h with h | h <;> simp [h.1]
    · exact List.mem_cons_of_mem _ (ih h)

/-- C8: when `SubscribeSelf`, `Subscribe("metrics")` and `AddHandler` succeed,
`OpenWebsocket` returns no error, and its effects are the five subscription and
registration calls followed by the handler calls; for every handler of the table
(whose handlers are pairwise different objects) these contain `InitialData`
immediately followed by `SetupPollingMetrics` on that handler, and neither call
on that handler anywhere else: each is made exactly once, in that order, after the
message, disconnect and reconnect handlers were registered. -/
theorem OpenWebsocket_initialises_handlers (env : Env) (m : Metrics)
    (hrange : (env.rangeOrder m.serviceMetrics).Perm m.serviceMetrics)
    (hdistinct : (m.serviceMetrics.map Prod.snd).Nodup)
    (h1 : env.SubscribeSelf = none) (h2 : env.Subscribe "metrics" = none)
    (h3 : env.AddHandler = none) :
    (OpenWebsocket env m).2.1 = none ∧
    (OpenWebsocket env m).2.2
      = registrationCalls ++ openServices (env.rangeOrder m.serviceMetrics) ∧
    ∀ handler ∈ m.serviceMetrics.map Prod.snd, ∃ before after,
      (OpenWebsocket env m).2.2
        = registrationCalls ++ before ++
          [Effect.call handler .InitialData, Effect.call handler .SetupPollingMetrics] ++
          after ∧
      Effect.call handler .InitialData ∉ before ++ after ∧
      Effect.call handler .SetupPollingMetrics ∉ before ++ after := by
  have htrace : (OpenWebsocket env m).2.2
      = registrationCalls ++ openServices (env.rangeOrder m.serviceMetrics) := by
    simp [OpenWebsocket, h1, h2, h3, registrationCalls]
  refine ⟨by simp [OpenWebsocket, h1, h2, h3], htrace, ?_⟩
  intro handler hmem
  have hmem2 : handler ∈ (env.rangeOrder m.serviceMetrics).map Prod.snd :=
    (hrange.map Prod.snd).mem_iff.mpr hmem
  have hnodup : ((env.rangeOrder m.serviceMetrics).map Prod.snd).Nodup :=
    (hrange.map Prod.snd).nodup_iff.mpr hdistinct
  obtain ⟨entry, hentry, rfl⟩ := List.mem_map.mp hmem2
  obtain ⟨front, back, hsplit⟩ := List.append_of_mem hentry
  rw [hsplit] at hnodup
  simp only [List.map_append, List.map_cons] at hnodup
  have hfront : entry.2 ∉ front.map Prod.snd := by
    intro h
    exact (List.nodup_append.mp hnodup).2.2 h (List.mem_cons_self _ _)
  have hback : entry.2 ∉ back.map Prod.snd :=
    (List.nodup_cons.mp (List.nodup_append.mp hnodup).2.1).1
  refine ⟨openServices front, openServices back, ?_, ?_, ?_⟩
  · rw [htrace, hsplit]
    have : front ++ entry :: back = front ++ ([entry] ++ back) := rfl
    rw [this, openServices_append, openServices_append]
    simp [openServices]
  · intro h
    rcases List.mem_append.mp h with h | h
    · exact hfront (mem_openServices front _ _ h)
    · exact hback (mem_openServices back _ _ h)
  · intro h
    rcases List.mem_append.mp h with h | h
    · exact hfront (mem_openServices front _ _ h)
    · exact hback (mem_openServices back _ _ h)

/-- The scenario of C8: with every step succeeding and the map visited back to front,
the effects of `OpenWebsocket` on the table of `NewMetrics` are the five registration
calls and then `InitialData`, `SetupPollingMetrics` for each of the six handlers. -/
theorem OpenWebsocket_initialises_handlers_witness :
    (OpenWebsocket sampleEnv sampleMetrics).2.1 = none ∧
    (OpenWebsocket sampleEnv sampleMetrics).2.2
      = registrationCalls ++ openServices (sampleEnv.rangeOrder sampleMetrics.serviceMetrics) :=
  ⟨(OpenWebsocket_initialises_handlers sampleEnv sampleMetrics (List.reverse_perm _)
      (by decide) rfl rfl rfl).1,
    (OpenWebsocket_initialises_handlers sampleEnv sampleMetrics (List.reverse_perm _)
      (by decide) rfl rfl rfl).2.1⟩

/-- C10: the table of a `Metrics` returned by `NewMetrics` has exactly the six keys
`full_node`, `wallet`, `crawler`, `timelord`, `harvester` and `farmer`, each mapped to
the handler of its own subsystem; `OpenWebsocket`, `websocketReceive`,
`disconnectHandler` and `reconnectHandler` leave the table as it is; so the lookup
`websocketReceive` makes for each known origin finds that handler, and no event makes
it end in a panic. -/
theorem dispatcher_table_fixed (env : Env) (port : Nat) (logLevel : LogLevel) (m : Metrics)
    (hnew : (NewMetrics env port logLevel).1 = .ok m) :
    m.serviceMetrics =
      [("full_node", .FullNodeServiceMetrics), ("wallet", .WalletServiceMetrics),
       ("crawler", .CrawlerServiceMetrics), ("timelord", .TimelordServiceMetrics),
       ("harvester", .HarvesterServiceMetrics), ("farmer", .FarmerServiceMetrics)] ∧
    (∀ env2, (OpenWebsocket env2 m).1.serviceMetrics = m.serviceMetrics) ∧
    (∀ resp err after trace, websocketReceive m resp err = some (after, trace) →
      after.serviceMetrics = m.serviceMetrics) ∧
    (∀ env2, (disconnectHandler env2 m).1.serviceMetrics = m.serviceMetrics) ∧
    (∀ env2, (reconnectHandler env2 m).1.serviceMetrics = m.serviceMetrics) ∧
    (∀ origin key own, (origin, key, own) ∈ knownOrigins →
      mapGet m.serviceMetrics key = some own) ∧
    (∀ resp : WebsocketResponse, websocketReceive m (some resp) none ≠ none) := by
  have htable : m.serviceMetrics = registerServices := by
    unfold NewMetrics at hnew
    cases hws : env.NewClient .ConnectionModeWebsocket with
    | error e => simp [hws] at hnew
    | ok client =>
      simp only [hws, Except.ok.injEq] at hnew
      rw [← hnew]
  have hlookup : ∀ origin key own, (origin, key, own) ∈ knownOrigins →
      mapGet m.serviceMetrics key = some own := by
    intro origin key own hmem
    rw [htable]
    simp only [knownOrigins, List.mem_cons, Prod.mk.injEq, List.mem_nil_iff, or_false] at hmem
    rcases hmem with h | h | h | h | h | h <;> obtain ⟨-, rfl, rfl⟩ := h <;> decide
  refine ⟨by rw [htable]; decide, ?_, ?_, fun _ => rfl, fun _ => rfl, hlookup, ?_⟩
  · intro env2
    unfold OpenWebsocket
    cases env2.SubscribeSelf with
    | some e1 => rfl
    | none =>
      cases env2.Subscribe "metrics" with
      | some e2 => rfl
      | none =>
        cases env2.AddHandler with
        | some e3 => rfl
        | none => rfl
  · intro resp err after trace h
    unfold websocketReceive at h
    cases err with
    | some e =>
      simp only [Option.some.injEq, Prod.mk.injEq] at h
      rw [← h.1]
    | none =>
      cases resp with
      | none => simp at h
      | some r =>
        cases hroute : routeOrigin m r with
        | none => simp [hroute] at h
        | some calls =>
          simp only [hroute, Option.some.injEq, Prod.mk.injEq] at h
          rw [← h.1]
  · intro resp
    by_cases hknown : ∃ entry ∈ knownOrigins, entry.1 = resp.Origin
    · obtain ⟨⟨origin, key, own⟩, hmem, horigin⟩ := hknown
      have horigin2 : origin = resp.Origin := horigin
      subst horigin2
      simp [websocketReceive, routeOrigin_known m resp key own hmem, dispatch,
        hlookup _ key own hmem]
    · have hother : ∀ entry ∈ knownOrigins, entry.1 ≠ resp.Origin := by
        intro entry hmem heq
        exact hknown ⟨entry, hmem, heq⟩
      simp [websocketReceive, routeOrigin_unknown m resp hother]

/-- The scenario of C10: the `Metrics` that `NewMetrics` returns when every step
succeeds is the sample one, and an event from the farmer finds the farmer handler. -/
theorem dispatcher_table_fixed_witness :
    (NewMetrics sampleEnv 9914 .InfoLevel).1 = .ok sampleMetrics ∧
    mapGet sampleMetrics.serviceMetrics "farmer" = some .FarmerServiceMetrics :=
  ⟨rfl, (dispatcher_table_fixed sampleEnv 9914 .InfoLevel sampleMetrics rfl).2.2.2.2.2.1
    "chik_farmer" "farmer" .FarmerServiceMetrics (by decide)⟩

/-! ## Lazy registration -/

theorem heap_alloc_cases (heap : List MetricObj) (o : MetricObj) (i : Nat) (x : MetricObj)
    (hx : (heap ++ [o])[i]? = some x) :
    (heap[i]? = some x ∧ i < heap.length) ∨ (i = heap.length ∧ x = o) := by
  rcases Nat.lt_or_ge i heap.length with hlt | hge
  · rw [List.getElem?_append_left hlt] at hx
    exact Or.inl ⟨hx, hlt⟩
  · rw [List.getElem?_append_right hge] at hx
    have hlen : i - heap.length < 1 := by
      by_contra hcon
      rw [List.getElem?_eq_none (by simpa using Nat.le_of_not_lt hcon)] at hx
      simp at hx
    have hi : i = heap.length := by omega
    subst hi
    simp at hx
    exact Or.inr ⟨rfl, hx.symm⟩

theorem storeInv_alloc_lazy (s : MetricStore) (U : List Nat) (o : MetricObj)
    (hinv : StoreInv s U) (hkind : o.kind.isLazy = true) (hser : o.series ≠ [])
    (hflag : o.registered = false) :
    StoreInv ⟨s.heap ++ [o], s.registered⟩ U := by
  have hcases := heap_alloc_cases s.heap o
  refine ⟨?_, ?_, ?_, ?_, ?_⟩
  · intro i hi
    have := hinv.bound i hi
    simp only [List.length_append, List.length_singleton]
    omega
  · intro i hi
    have := hinv.updatedBound i hi
    simp only [List.length_append, List.length_singleton]
    omega
  · intro i x hx
    rcases hcases i x hx with ⟨hold, -⟩ | ⟨rfl, rfl⟩
    · exact hinv.exposed i x hold
    · constructor
      · intro h
        exact absurd (hinv.bound _ h.1) (Nat.lt_irrefl _)
      · intro h
        exact absurd (hinv.updatedBound _ h) (Nat.lt_irrefl _)
  · intro i x hx hk
    rcases hcases i x hx with ⟨hold, -⟩ | ⟨rfl, rfl⟩
    · exact hinv.lazyOk i x hold hk
    · refine ⟨hser, ?_⟩
      intro h
      rw [hflag] at h
      exact absurd h (by decide)
  · intro i x hx hk
    rcases hcases i x hx with ⟨hold, -⟩ | ⟨rfl, rfl⟩
    · exact hinv.vecOk i x hold hk
    · rw [hkind] at hk
      exact absurd hk (by decide)

theorem storeInv_alloc_vec (s : MetricStore) (U : List Nat) (o : MetricObj)
    (hinv : StoreInv s U) (hkind : o.kind.isLazy = false) (hser : o.series = []) :
    StoreInv ⟨s.heap ++ [o], s.registered ++ [s.heap.length]⟩ U := by
  have hcases := heap_alloc_cases s.heap o
  refine ⟨?_, ?_, ?_, ?_, ?_⟩
  · intro i hi
    simp only [List.length_append, List.length_singleton]
    rcases List.mem_append.mp hi with h | h
    · have := hinv.bound i h
      omega
    · simp only [List.mem_singleton] at h
      omega
  · intro i hi
    have := hinv.updatedBound i hi
    simp only [List.length_append, List.length_singleton]
    omega
  · intro i x hx
    rcases hcases i x hx with ⟨hold, hlt⟩ | ⟨rfl, rfl⟩
    · rw [← hinv.exposed i x hold]
      simp only [List.mem_append, List.mem_singleton]
      constructor
      · rintro ⟨h | h, hs⟩
        · exact ⟨h, hs⟩
        · omega
      · rintro ⟨h, hs⟩
        exact ⟨Or.inl h, hs⟩
    · constructor
      · intro h
        exact absurd hser h.2
      · intro h
        exact absurd (hinv.updatedBound _ h) (Nat.lt_irrefl _)
  · intro i x hx hk
    rcases hcases i x hx with ⟨hold, -⟩ | ⟨rfl, rfl⟩
    · have := hinv.lazyOk i x hold hk
      exact ⟨this.1, fun h => List.mem_append_left _ (this.2 h)⟩
    · rw [hkind] at hk
      exact absurd hk (by decide)
  · intro i x hx hk
    rcases hcases i x hx with ⟨hold, -⟩ | ⟨rfl, rfl⟩
    · exact List.mem_append_left _ (hinv.vecOk i x hold hk)
    · exact List.mem_append_right _ (List.mem_singleton.mpr rfl)

theorem storeInv_write (s : MetricStore) (U : List Nat) (h : Nat) (o o2 : MetricObj)
    (reg2 : List Nat) (hinv : StoreInv s U) (hget : s.heap[h]? = some o)
    (hser : o2.series ≠ [])
    (hreg : reg2 = s.registered ∨ reg2 = s.registered ++ [h]) (hin : h ∈ reg2) :
    StoreInv ⟨s.heap.set h o2, reg2⟩ (U ++ [h]) := by
  have hlt : h < s.heap.length := (List.getElem?_eq_some.mp hget).1
  have hmono : ∀ i, i ∈ s.registered → i ∈ reg2 := by
    intro i hi
    rcases hreg with rfl | rfl
    · exact hi
    · exact List.mem_append_left _ hi
  have hback : ∀ i, i ≠ h → i ∈ reg2 → i ∈ s.registered := by
    intro i hne hi
    rcases hreg with rfl | rfl
    · exact hi
    · rcases List.mem_append.mp hi with h1 | h1
      · exact h1
      · exact absurd (List.mem_singleton.mp h1) hne
  have hcases : ∀ i x, (s.heap.set h o2)[i]? = some x →
      (i = h ∧ x = o2) ∨ (i ≠ h ∧ s.heap[i]? = some x) := by
    intro i x hx
    rw [List.getElem?_set] at hx
    by_cases hi : h = i
    · subst hi
      simp only [if_true, hlt, Option.some.injEq] at hx
      exact Or.inl ⟨rfl, hx.symm⟩
    · simp only [hi, if_false] at hx
      exact Or.inr ⟨fun e => hi e.symm, hx⟩
  refine ⟨?_, ?_, ?_, ?_, ?_⟩
  · intro i hi
    simp only [List.length_set]
    by_cases hih : i = h
    · rw [hih]
      exact hlt
    · exact hinv.bound i (hback i hih hi)
  · intro i hi
    simp only [List.length_set]
    rcases List.mem_append.mp hi with h1 | h1
    · exact hinv.updatedBound i h1
    · rw [List.mem_singleton.mp h1]
      exact hlt
  · intro i x hx
    rcases hcases i x hx with ⟨rfl, rfl⟩ | ⟨hne, hold⟩
    · exact ⟨fun _ => List.mem_append_right _ (List.mem_singleton.mpr rfl),
        fun _ => ⟨hin, hser⟩⟩
    · constructor
      · rintro ⟨h1, h2⟩
        exact List.mem_append_left _ ((hinv.exposed i x hold).mp ⟨hback i hne h1, h2⟩)
      · intro h1
        rcases List.mem_append.mp h1 with h2 | h2
        · have := (hinv.exposed i x hold).mpr h2
          exact ⟨hmono i this.1, this.2⟩
        · exact absurd (List.mem_singleton.mp h2) hne
  · intro i x hx hk
    rcases hcases i x hx with ⟨rfl, rfl⟩ | ⟨hne, hold⟩
    · exact ⟨hser, fun _ => hin⟩
    · have := hinv.lazyOk i x hold hk
      exact ⟨this.1, fun h1 => hmono i (this.2 h1)⟩
  · intro i x hx hk
    rcases hcases i x hx with ⟨rfl, rfl⟩ | ⟨hne, hold⟩
    · exact hin
    · exact hmono i (hinv.vecOk i x hold hk)

theorem mapSet_ne_nil {κ α : Type} [DecidableEq κ] (g : List (κ × α)) (l : κ) (v : α) :
    mapSet g l v ≠ [] := by
  cases g with
  | nil => simp [mapSet]
  | cons hd tl =>
    obtain ⟨k, w⟩ := hd
    by_cases hk : k = l <;> simp [mapSet, hk]

theorem storeInv_lazyWrite (s s2 : MetricStore) (U : List Nat) (h : Nat) (o : MetricObj)
    (apply : ℚ → ℚ) (hinv : StoreInv s U) (hget : s.heap[h]? = some o)
    (hkind : o.kind.isLazy = true) (hwrite : lazyWrite s h o apply = some s2) :
    StoreInv s2 (U ++ [h]) := by
  unfold lazyWrite at hwrite
  cases hflag : o.registered with
  | true =>
    simp only [hflag, if_true, Option.map_some', Option.some.injEq] at hwrite
    subst hwrite
    exact storeInv_write s U h o _ s.registered hinv hget (by simp) (Or.inl rfl)
      ((hinv.lazyOk h o hget hkind).2 hflag)
  | false =>
    simp only [hflag, MustRegister, hget] at hwrite
    by_cases hdup : fqName o.opts ∈ registeredNames s
    · simp [hdup] at hwrite
    · simp only [hdup, if_false, Bool.false_eq_true, Option.map_some',
        Option.some.injEq] at hwrite
      subst hwrite
      exact storeInv_write s U h o _ (s.registered ++ [h]) hinv hget (by simp) (Or.inr rfl)
        (List.mem_append_right _ (List.mem_singleton.mpr rfl))

theorem storeInv_vecWrite (s s2 : MetricStore) (U : List Nat) (h : Nat) (o : MetricObj)
    (values : List String) (apply : ℚ → ℚ) (hinv : StoreInv s U)
    (hget : s.heap[h]? = some o) (hkind : o.kind.isLazy = false)
    (hwrite : vecWrite s h o values apply = some s2) :
    StoreInv s2 (U ++ [h]) := by
  unfold vecWrite at hwrite
  by_cases hlen : values.length = o.labels.length
  · simp only [hlen, if_true, Option.some.injEq] at hwrite
    subst hwrite
    exact storeInv_write s U h o _ s.registered hinv hget (mapSet_ne_nil _ _ _) (Or.inl rfl)
      (hinv.vecOk h o hget hkind)
  · simp [hlen] at hwrite

theorem storeInv_step (m : Metrics) (s s2 : MetricStore) (op : MetricOp) (U : List Nat)
    (hinv : StoreInv s U) (hstep : stepMetric m s op = some s2) :
    StoreInv s2 (U ++ updatedHandles [op]) := by
  cases op with
  | newGauge service name help =>
    simp only [stepMetric, newGauge, Option.some.injEq] at hstep
    subst hstep
    have hnew := storeInv_alloc_lazy s U
      ⟨.lazyGauge, ⟨"chik", service, name, help⟩, [], m.registry, false, [([], 0)]⟩
      hinv rfl (by simp) rfl
    simpa [updatedHandles] using hnew
  | newCounter service name help =>
    simp only [stepMetric, newCounter, Option.some.injEq] at hstep
    subst hstep
    have hnew := storeInv_alloc_lazy s U
      ⟨.lazyCounter, ⟨"chik", service, name, help⟩, [], m.registry, false, [([], 0)]⟩
      hinv rfl (by simp) rfl
    simpa [updatedHandles] using hnew
  | newGaugeVec service name help labels =>
    simp only [stepMetric, newGaugeVec, MustRegister, List.getElem?_concat_length] at hstep
    split at hstep
    · simp at hstep
    · simp only [Option.map_some', Option.some.injEq] at hstep
      subst hstep
      have hnew := storeInv_alloc_vec s U
        ⟨.gaugeVec, ⟨"chik", service, name, help⟩, labels, m.registry, false, []⟩
        hinv rfl rfl
      simpa [updatedHandles] using hnew
  | newCounterVec service name help labels =>
    simp only [stepMetric, newCounterVec, MustRegister, List.getElem?_concat_length] at hstep
    split at hstep
    · simp at hstep
    · simp only [Option.map_some', Option.some.injEq] at hstep
      subst hstep
      have hnew := storeInv_alloc_vec s U
        ⟨.counterVec, ⟨"chik", service, name, help⟩, labels, m.registry, false, []⟩
        hinv rfl rfl
      simpa [updatedHandles] using hnew
  | update h values v =>
    have hU : U ++ updatedHandles [MetricOp.update h values v] = U ++ [h] := by
      simp [updatedHandles]
    rw [hU]
    simp only [stepMetric, updateMetric] at hstep
    cases hget : s.heap[h]? with
    | none => simp [hget] at hstep
    | some o =>
      simp only [hget] at hstep
      cases hkind : o.kind with
      | lazyGauge =>
        simp only [hkind] at hstep
        split at hstep
        · exact storeInv_lazyWrite s s2 U h o _ hinv hget (by rw [hkind]; rfl) hstep
        · simp at hstep
      | lazyCounter =>
        simp only [hkind] at hstep
        split at hstep
        · exact storeInv_lazyWrite s s2 U h o _ hinv hget (by rw [hkind]; rfl) hstep
        · simp at hstep
      | gaugeVec =>
        simp only [hkind] at hstep
        exact storeInv_vecWrite s s2 U h o values _ hinv hget (by rw [hkind]; rfl) hstep
      | counterVec =>
        simp only [hkind] at hstep
        split at hstep
        · exact storeInv_vecWrite s s2 U h o values _ hinv hget (by rw [hkind]; rfl) hstep
        · simp at hstep

theorem storeInv_run (m : Metrics) (ops : List MetricOp) (s s2 : MetricStore) (U : List Nat)
    (hinv : StoreInv s U) (hrun : runMetricOps m s ops = some s2) :
    StoreInv s2 (U ++ updatedHandles ops) := by
  induction ops generalizing s U with
  | nil =>
    simp only [runMetricOps, Option.some.injEq] at hrun
    subst hrun
    simpa [updatedHandles] using hinv
  | cons op rest ih =>
    simp only [runMetricOps] at hrun
    cases hstep : stepMetric m s op with
    | none => simp [hstep] at hrun
    | some s1 =>
      simp only [hstep] at hrun
      have h1 := ih s1 (U ++ updatedHandles [op]) (storeInv_step m s s1 op U hinv hstep) hrun
      have hU : U ++ updatedHandles [op] ++ updatedHandles rest
          = U ++ updatedHandles (op :: rest) := by
        simp [updatedHandles, List.filterMap_cons]
        cases op <;> simp
      rw [← hU]
      exact h1

theorem storeInv_empty : StoreInv MetricStore.empty [] := by
  refine ⟨?_, ?_, ?_, ?_, ?_⟩ <;> simp [MetricStore.empty]

theorem mem_scrapeNames (s : MetricStore) (name : String) :
    name ∈ scrapeNames s ↔
      ∃ h o, h ∈ s.registered ∧ s.heap[h]? = some o ∧ o.series ≠ [] ∧ fqName o.opts = name := by
  simp only [scrapeNames, scrape, List.mem_map, List.mem_flatMap]
  constructor
  · rintro ⟨sample, ⟨h, hreg, hsample⟩, rfl⟩
    cases hget : s.heap[h]? with
    | none => simp [hget] at hsample
    | some o =>
      simp only [hget, List.mem_map] at hsample
      obtain ⟨lv, hlv, rfl⟩ := hsample
      exact ⟨h, o, hreg, hget, List.ne_nil_of_mem hlv, rfl⟩
  · rintro ⟨h, o, hreg, hget, hser, rfl⟩
    obtain ⟨lv, rest, hcons⟩ := List.exists_cons_of_ne_nil hser
    refine ⟨(fqName o.opts, lv.1, lv.2), ⟨h, hreg, ?_⟩, rfl⟩
    simp only [hget, List.mem_map]
    exact ⟨lv, by rw [hcons]; exact List.mem_cons_self _ _, rfl⟩

/-- C6: after any sequence of constructor calls (`newGauge`, `newCounter`,
`newGaugeVec`, `newCounterVec`) and updates that runs without a panic on a fresh
registry, a metric name is present in a scrape if and only if a metric with that name
received at least one update; in particular, when the sequence holds no update, the
scrape is empty: constructing a metric never makes it appear. -/
theorem lazy_registration_law (m : Metrics) (ops : List MetricOp) (s : MetricStore)
    (hrun : runMetricOps m MetricStore.empty ops = some s) :
    (∀ name, name ∈ scrapeNames s ↔
      ∃ h o, s.heap[h]? = some o ∧ fqName o.opts = name ∧ h ∈ updatedHandles ops) ∧
    (updatedHandles ops = [] → scrape s = []) := by
  have hinv : StoreInv s (updatedHandles ops) := by
    simpa using storeInv_run m ops MetricStore.empty s [] storeInv_empty hrun
  have hiff : ∀ name, name ∈ scrapeNames s ↔
      ∃ h o, s.heap[h]? = some o ∧ fqName o.opts = name ∧ h ∈ updatedHandles ops := by
    intro name
    rw [mem_scrapeNames]
    constructor
    · rintro ⟨h, o, hreg, hget, hser, hname⟩
      exact ⟨h, o, hget, hname, (hinv.exposed h o hget).mp ⟨hreg, hser⟩⟩
    · rintro ⟨h, o, hget, hname, hupd⟩
      have := (hinv.exposed h o hget).mpr hupd
      exact ⟨h, o, this.1, hget, this.2, hname⟩
  refine ⟨hiff, ?_⟩
  intro hnone
  cases hscrape : scrape s with
  | nil => rfl
  | cons sample rest =>
    have hmem : sample.1 ∈ scrapeNames s := by
      simp [scrapeNames, hscrape]
    obtain ⟨h, o, -, -, hupd⟩ := (hiff sample.1).mp hmem
    rw [hnone] at hupd
    simp at hupd

/-- The scenario of C6: a lazy gauge and a gauge vector are built and only the vector
is updated; the scrape shows the vector and not the gauge. -/
theorem lazy_registration_law_witness :
    runMetricOps sampleMetrics MetricStore.empty sampleMetricOps = some sampleStore ∧
    ("chik_full_node_connection_count" ∈ scrapeNames sampleStore ↔
      ∃ h o, sampleStore.heap[h]? = some o ∧
        fqName o.opts = "chik_full_node_connection_count" ∧
        h ∈ updatedHandles sampleMetricOps) :=
  ⟨by decide,
    (lazy_registration_law sampleMetrics sampleMetricOps sampleStore (by decide)).1
      "chik_full_node_connection_count"⟩

end ChikExporter
